import Mathlib

/-!
Verification of the free-look camera component (`src/camera.hpp`).

The camera is shallowly embedded over the real numbers: `glm::vec3`
becomes `Vec3` (a record of three reals), the C++ member functions
become pure state-transformers `Camera → Camera`, and the float
arithmetic of the source is read as exact real arithmetic.  Division
by zero follows Lean's convention `x / 0 = 0`, which only matters at
the orientation singularity where `glm::normalize` is applied to the
zero vector.
-/

namespace LearnGL

noncomputable section

/-- `glm::vec3`: a 3-component real vector. -/
structure Vec3 where
  x : ℝ
  y : ℝ
  z : ℝ

/-- Componentwise vector addition (`operator+` of `glm::vec3`). -/
def Vec3.add (a b : Vec3) : Vec3 :=
  ⟨a.x + b.x, a.y + b.y, a.z + b.z⟩

/-- Componentwise vector subtraction (`operator-` of `glm::vec3`). -/
def Vec3.sub (a b : Vec3) : Vec3 :=
  ⟨a.x - b.x, a.y - b.y, a.z - b.z⟩

/-- Vector-times-scalar (`v * k` on `glm::vec3`). -/
def Vec3.scale (v : Vec3) (k : ℝ) : Vec3 :=
  ⟨v.x * k, v.y * k, v.z * k⟩

/-- `glm::dot` on `vec3`. -/
def Vec3.dot (a b : Vec3) : ℝ :=
  a.x * b.x + a.y * b.y + a.z * b.z

/-- `glm::cross` on `vec3`. -/
def Vec3.cross (a b : Vec3) : Vec3 :=
  ⟨a.y * b.z - a.z * b.y, a.z * b.x - a.x * b.z, a.x * b.y - a.y * b.x⟩

/-- Euclidean length, `glm::length`. -/
def Vec3.norm (v : Vec3) : ℝ :=
  Real.sqrt (Vec3.dot v v)

/-- `glm::normalize`: divide each component by the length. -/
def Vec3.normalize (v : Vec3) : Vec3 :=
  ⟨v.x / v.norm, v.y / v.norm, v.z / v.norm⟩

/-- `glm::radians`: degrees to radians. -/
def radians (degrees : ℝ) : ℝ :=
  degrees * (Real.pi / 180)

/-- `std::clamp(v, lo, hi)` (for `lo ≤ hi`). -/
def clamp (v lo hi : ℝ) : ℝ :=
  max lo (min v hi)

/-- `enum class direction`. -/
inductive direction where
  | forward
  | backward
  | left
  | right

/-- `constexpr float YAW = -90.0f`. -/
def YAW : ℝ := -90

/-- `constexpr float PITCH = 0.0f`. -/
def PITCH : ℝ := 0

/-- `constexpr float SPEED = 2.5f`. -/
def SPEED : ℝ := 2.5

/-- `constexpr float SENSITIVITY = 0.1f`. -/
def SENSITIVITY : ℝ := 0.1

/-- `constexpr float FOV = 45.0f`. -/
def FOV : ℝ := 45

/-- The `Camera` class state.  Field names keep the source's trailing
underscore. -/
structure Camera where
  position_ : Vec3
  forward_ : Vec3
  up_ : Vec3
  world_up_ : Vec3
  right_ : Vec3
  yaw_ : ℝ
  pitch_ : ℝ
  movement_speed_ : ℝ
  mouse_sensitivity_ : ℝ
  fov_ : ℝ

/-- `Camera::update_camera_vectors` (private): recompute `forward_`
from yaw/pitch by the spherical-to-Cartesian formula, normalize it,
and set `right_` to the normalized cross product with `world_up_`. -/
def Camera.update_camera_vectors (c : Camera) : Camera :=
  let forward := Vec3.normalize
    ⟨Real.cos (radians c.yaw_) * Real.cos (radians c.pitch_),
     Real.sin (radians c.pitch_),
     Real.sin (radians c.yaw_) * Real.cos (radians c.pitch_)⟩
  { c with
    forward_ := forward
    right_ := Vec3.normalize (Vec3.cross forward c.world_up_) }

/-- The `Camera` constructor.  In the source, `position`, `yaw` and
`pitch` default to the origin, `YAW` and `PITCH`; the member
initializers set `forward_ = (0,0,-1)`, `up_ = (0,1,0)`,
`world_up_ = up_`, speed/sensitivity/fov to their constants, and
`right_` is left default-constructed (zero here; it is overwritten by
`update_camera_vectors` before any read). -/
def Camera.init (position : Vec3) (yaw pitch : ℝ) : Camera :=
  Camera.update_camera_vectors
    { position_ := position
      forward_ := ⟨0, 0, -1⟩
      up_ := ⟨0, 1, 0⟩
      world_up_ := ⟨0, 1, 0⟩
      right_ := ⟨0, 0, 0⟩
      yaw_ := yaw
      pitch_ := pitch
      movement_speed_ := SPEED
      mouse_sensitivity_ := SENSITIVITY
      fov_ := FOV }

/-- `Camera::fov`: accessor for `fov_`. -/
def Camera.fov (c : Camera) : ℝ :=
  c.fov_

/-- `Camera::handle_keyboard`: displace `position_` by
`forward_`/`right_` times `movement_speed_ * delta_time`, with the
sign dictated by the direction. -/
def Camera.handle_keyboard (c : Camera) (d : direction) (delta_time : ℝ) : Camera :=
  let velocity := c.movement_speed_ * delta_time
  match d with
  | direction.forward => { c with position_ := c.position_.add (c.forward_.scale velocity) }
  | direction.backward => { c with position_ := c.position_.sub (c.forward_.scale velocity) }
  | direction.left => { c with position_ := c.position_.sub (c.right_.scale velocity) }
  | direction.right => { c with position_ := c.position_.add (c.right_.scale velocity) }

/-- `Camera::handle_mouse`: scale both offsets by
`mouse_sensitivity_`, add the scaled x-offset to `yaw_`, subtract the
scaled y-offset from `pitch_`, clamp `pitch_` to `[-89, 89]` when
`constrain_pitch` (default `true` in the source), then recompute the
derived vectors. -/
def Camera.handle_mouse (c : Camera) (xoffset yoffset : ℝ) (constrain_pitch : Bool) : Camera :=
  let xoffset := xoffset * c.mouse_sensitivity_
  let yoffset := yoffset * c.mouse_sensitivity_
  let yaw := c.yaw_ + xoffset
  let pitch := c.pitch_ - yoffset
  let pitch := if constrain_pitch then clamp pitch (-89) 89 else pitch
  Camera.update_camera_vectors { c with yaw_ := yaw, pitch_ := pitch }

/-- `Camera::handle_scroll`: `fov_ -= std::clamp(yoffset, 1, 45)`. -/
def Camera.handle_scroll (c : Camera) (yoffset : ℝ) : Camera :=
  { c with fov_ := c.fov_ - clamp yoffset 1 45 }

/-- `glm::vec4`. -/
structure Vec4 where
  x : ℝ
  y : ℝ
  z : ℝ
  w : ℝ

/-- `glm::mat4`, column-major: four `vec4` columns. -/
structure Mat4 where
  c0 : Vec4
  c1 : Vec4
  c2 : Vec4
  c3 : Vec4

/-- `glm::lookAt` (right-handed): view transform with the given eye,
target and up-reference. -/
def lookAt (eye center up : Vec3) : Mat4 :=
  let f := Vec3.normalize (center.sub eye)
  let s := Vec3.normalize (Vec3.cross f up)
  let u := Vec3.cross s f
  { c0 := ⟨s.x, u.x, -f.x, 0⟩
    c1 := ⟨s.y, u.y, -f.y, 0⟩
    c2 := ⟨s.z, u.z, -f.z, 0⟩
    c3 := ⟨-(Vec3.dot s eye), -(Vec3.dot u eye), Vec3.dot f eye, 1⟩ }

/-- `Camera::view`: `lookAt(position_, position_ + forward_, up_)`. -/
def Camera.view (c : Camera) : Mat4 :=
  lookAt c.position_ (c.position_.add c.forward_) c.up_

/-- A sequence of `handle_mouse` calls, all with `constrain_pitch = true`,
applied left to right (the render loop feeding cursor deltas). -/
def apply_mouse_events (evs : List (ℝ × ℝ)) (c : Camera) : Camera :=
  evs.foldl (fun cam e => cam.handle_mouse e.1 e.2 true) c

/-- A sequence of `handle_scroll` calls applied left to right. -/
def apply_scroll_events (evs : List ℝ) (c : Camera) : Camera :=
  evs.foldl (fun cam yo => cam.handle_scroll yo) c

/-- Modelled from the spec: the orientation-update algorithm's forward
vector, written exactly from the spec's pseudocode (spherical-to-
Cartesian then normalize). -/
def spec_forward (yaw pitch : ℝ) : Vec3 :=
  Vec3.normalize
    ⟨Real.cos (radians yaw) * Real.cos (radians pitch),
     Real.sin (radians pitch),
     Real.sin (radians yaw) * Real.cos (radians pitch)⟩

/-- Modelled from the spec: the orientation-update algorithm's right
vector, `normalize(cross(forward, world_up))`. -/
def spec_right (yaw pitch : ℝ) (world_up : Vec3) : Vec3 :=
  Vec3.normalize (Vec3.cross (spec_forward yaw pitch) world_up)

end

/-! Projection lemmas: how each operation reads back, field by field. -/

theorem update_forward (c : Camera) :
    (c.update_camera_vectors).forward_ =
      Vec3.normalize
        ⟨Real.cos (radians c.yaw_) * Real.cos (radians c.pitch_),
         Real.sin (radians c.pitch_),
         Real.sin (radians c.yaw_) * Real.cos (radians c.pitch_)⟩ := rfl

theorem update_right (c : Camera) :
    (c.update_camera_vectors).right_ =
      Vec3.normalize (Vec3.cross (c.update_camera_vectors).forward_ c.world_up_) := rfl

theorem update_pitch (c : Camera) : (c.update_camera_vectors).pitch_ = c.pitch_ := rfl

theorem update_world_up (c : Camera) : (c.update_camera_vectors).world_up_ = c.world_up_ := rfl

theorem init_yaw (p : Vec3) (yaw pitch : ℝ) : (Camera.init p yaw pitch).yaw_ = yaw := rfl

theorem init_pitch (p : Vec3) (yaw pitch : ℝ) : (Camera.init p yaw pitch).pitch_ = pitch := rfl

theorem init_world_up (p : Vec3) (yaw pitch : ℝ) :
    (Camera.init p yaw pitch).world_up_ = ⟨0, 1, 0⟩ := rfl

theorem init_fov (p : Vec3) (yaw pitch : ℝ) : (Camera.init p yaw pitch).fov_ = 45 := rfl

theorem init_sensitivity (p : Vec3) (yaw pitch : ℝ) :
    (Camera.init p yaw pitch).mouse_sensitivity_ = 0.1 := rfl

theorem handle_mouse_yaw (c : Camera) (x y : ℝ) (cp : Bool) :
    (c.handle_mouse x y cp).yaw_ = c.yaw_ + x * c.mouse_sensitivity_ := rfl

theorem handle_mouse_pitch_true (c : Camera) (x y : ℝ) :
    (c.handle_mouse x y true).pitch_ = clamp (c.pitch_ - y * c.mouse_sensitivity_) (-89) 89 := rfl

theorem handle_mouse_pitch_false (c : Camera) (x y : ℝ) :
    (c.handle_mouse x y false).pitch_ = c.pitch_ - y * c.mouse_sensitivity_ := rfl

theorem handle_mouse_world_up (c : Camera) (x y : ℝ) (cp : Bool) :
    (c.handle_mouse x y cp).world_up_ = c.world_up_ := rfl

theorem handle_scroll_fov (c : Camera) (yo : ℝ) :
    (c.handle_scroll yo).fov_ = c.fov_ - clamp yo 1 45 := rfl

/-! Vector-algebra lemmas about the orientation formula. -/

theorem dot_self_nonneg (v : Vec3) : 0 ≤ Vec3.dot v v := by
  simp only [Vec3.dot]
  nlinarith [mul_self_nonneg v.x, mul_self_nonneg v.y, mul_self_nonneg v.z]

theorem forward_raw_dot_self (yaw pitch : ℝ) :
    Vec3.dot
      ⟨Real.cos (radians yaw) * Real.cos (radians pitch),
       Real.sin (radians pitch),
       Real.sin (radians yaw) * Real.cos (radians pitch)⟩
      ⟨Real.cos (radians yaw) * Real.cos (radians pitch),
       Real.sin (radians pitch),
       Real.sin (radians yaw) * Real.cos (radians pitch)⟩ = 1 := by
  simp only [Vec3.dot]
  linear_combination (Real.cos (radians pitch)) ^ 2 * Real.sin_sq_add_cos_sq (radians yaw) +
    Real.sin_sq_add_cos_sq (radians pitch)

theorem forward_raw_norm (yaw pitch : ℝ) :
    Vec3.norm
      ⟨Real.cos (radians yaw) * Real.cos (radians pitch),
       Real.sin (radians pitch),
       Real.sin (radians yaw) * Real.cos (radians pitch)⟩ = 1 := by
  unfold Vec3.norm
  rw [forward_raw_dot_self]
  exact Real.sqrt_one

theorem normalize_of_norm_one (v : Vec3) (h : v.norm = 1) : v.normalize = v := by
  cases v with
  | mk a b c => simp [Vec3.normalize, h]

theorem normalize_norm_one (v : Vec3) (h : v.norm ≠ 0) : v.normalize.norm = 1 := by
  have hd : 0 ≤ Vec3.dot v v := dot_self_nonneg v
  have hsq : v.norm ^ 2 = Vec3.dot v v := Real.sq_sqrt hd
  have hdot : Vec3.dot v.normalize v.normalize = 1 := by
    have hdiv : Vec3.dot v.normalize v.normalize = Vec3.dot v v / v.norm ^ 2 := by
      simp only [Vec3.normalize, Vec3.dot]
      ring
    rw [hdiv, ← hsq, div_self (pow_ne_zero 2 h)]
  unfold Vec3.norm
  rw [hdot]
  exact Real.sqrt_one

theorem dot_cross_self (a b : Vec3) : Vec3.dot a (Vec3.cross a b) = 0 := by
  simp only [Vec3.dot, Vec3.cross]
  ring

theorem dot_normalize (a v : Vec3) : Vec3.dot a v.normalize = Vec3.dot a v / v.norm := by
  simp only [Vec3.normalize, Vec3.dot]
  ring

theorem update_forward_eq_raw (c : Camera) :
    (c.update_camera_vectors).forward_ =
      ⟨Real.cos (radians c.yaw_) * Real.cos (radians c.pitch_),
       Real.sin (radians c.pitch_),
       Real.sin (radians c.yaw_) * Real.cos (radians c.pitch_)⟩ := by
  rw [update_forward]
  exact normalize_of_norm_one _ (forward_raw_norm _ _)

theorem update_forward_norm (c : Camera) : (c.update_camera_vectors).forward_.norm = 1 := by
  rw [update_forward_eq_raw]
  exact forward_raw_norm _ _

theorem cross_forward_world_up (c : Camera) (hw : c.world_up_ = ⟨0, 1, 0⟩) :
    Vec3.cross (c.update_camera_vectors).forward_ c.world_up_ =
      ⟨-(Real.sin (radians c.yaw_) * Real.cos (radians c.pitch_)), 0,
        Real.cos (radians c.yaw_) * Real.cos (radians c.pitch_)⟩ := by
  rw [update_forward_eq_raw, hw]
  simp only [Vec3.cross, Vec3.mk.injEq]
  refine ⟨by ring, by ring, by ring⟩

theorem update_right_norm (c : Camera) (hw : c.world_up_ = ⟨0, 1, 0⟩)
    (hp : Real.cos (radians c.pitch_) ≠ 0) : (c.update_camera_vectors).right_.norm = 1 := by
  rw [update_right, cross_forward_world_up c hw]
  refine normalize_norm_one _ ?_
  have hdot : Vec3.dot
      (⟨-(Real.sin (radians c.yaw_) * Real.cos (radians c.pitch_)), 0,
        Real.cos (radians c.yaw_) * Real.cos (radians c.pitch_)⟩ : Vec3)
      ⟨-(Real.sin (radians c.yaw_) * Real.cos (radians c.pitch_)), 0,
        Real.cos (radians c.yaw_) * Real.cos (radians c.pitch_)⟩ =
      Real.cos (radians c.pitch_) ^ 2 := by
    simp only [Vec3.dot]
    linear_combination (Real.cos (radians c.pitch_)) ^ 2 * Real.sin_sq_add_cos_sq (radians c.yaw_)
  unfold Vec3.norm
  rw [hdot, Real.sqrt_sq_eq_abs]
  exact abs_ne_zero.mpr hp

theorem update_orthogonal (c : Camera) :
    Vec3.dot (c.update_camera_vectors).forward_ (c.update_camera_vectors).right_ = 0 := by
  rw [update_right, dot_normalize, dot_cross_self, zero_div]

/-! Concrete trigonometric evaluations used by the scenario claims. -/

theorem radians_zero : radians 0 = 0 := by
  unfold radians
  ring

theorem radians_ninety : radians 90 = Real.pi / 2 := by
  unfold radians
  ring

theorem radians_neg_ninety : radians (-90) = -(Real.pi / 2) := by
  unfold radians
  ring

theorem init_forward_eq_raw (p : Vec3) (yaw pitch : ℝ) :
    (Camera.init p yaw pitch).forward_ =
      ⟨Real.cos (radians yaw) * Real.cos (radians pitch),
       Real.sin (radians pitch),
       Real.sin (radians yaw) * Real.cos (radians pitch)⟩ :=
  update_forward_eq_raw _

theorem init_right_eq (p : Vec3) (yaw pitch : ℝ) :
    (Camera.init p yaw pitch).right_ =
      Vec3.normalize (Vec3.cross (Camera.init p yaw pitch).forward_ ⟨0, 1, 0⟩) :=
  update_right _

theorem init_default_forward (p : Vec3) : (Camera.init p (-90) 0).forward_ = ⟨0, 0, -1⟩ := by
  rw [init_forward_eq_raw, radians_neg_ninety, radians_zero]
  simp only [Real.cos_neg, Real.cos_pi_div_two, Real.sin_neg, Real.sin_pi_div_two,
    Real.cos_zero, Real.sin_zero, Vec3.mk.injEq]
  norm_num

theorem init_default_right (p : Vec3) : (Camera.init p (-90) 0).right_ = ⟨1, 0, 0⟩ := by
  rw [init_right_eq, init_default_forward]
  have hc : Vec3.cross ⟨0, 0, -1⟩ ⟨0, 1, 0⟩ = (⟨1, 0, 0⟩ : Vec3) := by
    simp only [Vec3.cross, Vec3.mk.injEq]
    norm_num
  rw [hc]
  refine normalize_of_norm_one _ ?_
  unfold Vec3.norm
  simp only [Vec3.dot]
  norm_num

/-! Claim theorems. -/

/-- C1: whenever the derived vectors are recomputed (by
`update_camera_vectors`, at construction, and after every
`handle_mouse`), `forward_` equals the normalization of the spec's
spherical-to-Cartesian vector and `right_` equals the normalization of
its cross product with the world up; and the default construction
(yaw = -90, pitch = 0) yields forward = (0,0,-1) and right = (1,0,0). -/
theorem camera_orientation_matches_spec :
    (∀ c : Camera,
      (c.update_camera_vectors).forward_ = spec_forward c.yaw_ c.pitch_ ∧
      (c.update_camera_vectors).right_ = spec_right c.yaw_ c.pitch_ c.world_up_) ∧
    (∀ (p : Vec3) (yaw pitch : ℝ),
      (Camera.init p yaw pitch).forward_ = spec_forward yaw pitch ∧
      (Camera.init p yaw pitch).right_ = spec_right yaw pitch ⟨0, 1, 0⟩) ∧
    (∀ (c : Camera) (x y : ℝ) (cp : Bool),
      (c.handle_mouse x y cp).forward_ =
        spec_forward (c.handle_mouse x y cp).yaw_ (c.handle_mouse x y cp).pitch_ ∧
      (c.handle_mouse x y cp).right_ =
        spec_right (c.handle_mouse x y cp).yaw_ (c.handle_mouse x y cp).pitch_ c.world_up_) ∧
    (∀ p : Vec3,
      (Camera.init p (-90) 0).forward_ = ⟨0, 0, -1⟩ ∧
      (Camera.init p (-90) 0).right_ = ⟨1, 0, 0⟩) :=
  ⟨fun _ => ⟨rfl, rfl⟩,
   fun _ _ _ => ⟨rfl, rfl⟩,
   fun _ _ _ _ => ⟨rfl, rfl⟩,
   fun p => ⟨init_default_forward p, init_default_right p⟩⟩

/-- One constrained `handle_mouse` call leaves the pitch inside
`[-89, 89]`, whatever the previous pitch and the offsets were. -/
theorem handle_mouse_true_pitch_bounds (c : Camera) (x y : ℝ) :
    -89 ≤ (c.handle_mouse x y true).pitch_ ∧ (c.handle_mouse x y true).pitch_ ≤ 89 := by
  rw [handle_mouse_pitch_true]
  unfold clamp
  exact ⟨le_max_left _ _, max_le (by norm_num) (min_le_right _ _)⟩

/-- C3: starting from any pitch in [-89, 89], any sequence of
`handle_mouse` calls with `constrain_pitch = true` ends with the pitch
in [-89, 89]. -/
theorem constrained_mouse_sequence_pitch_bounded (evs : List (ℝ × ℝ)) (c : Camera)
    (h1 : -89 ≤ c.pitch_) (h2 : c.pitch_ ≤ 89) :
    -89 ≤ (apply_mouse_events evs c).pitch_ ∧ (apply_mouse_events evs c).pitch_ ≤ 89 := by
  induction evs generalizing c with
  | nil => exact ⟨h1, h2⟩
  | cons e rest ih =>
    have hstep := handle_mouse_true_pitch_bounds c e.1 e.2
    exact ih _ hstep.1 hstep.2

/-- C3 witness: the default camera (pitch 0) after a large upward
mouse movement still has its pitch in [-89, 89]. -/
theorem constrained_mouse_sequence_pitch_bounded_witness :
    (-89 ≤ (Camera.init ⟨0, 0, 0⟩ (-90) 0).pitch_ ∧ (Camera.init ⟨0, 0, 0⟩ (-90) 0).pitch_ ≤ 89) ∧
    (-89 ≤ (apply_mouse_events [(10, 2000)] (Camera.init ⟨0, 0, 0⟩ (-90) 0)).pitch_ ∧
      (apply_mouse_events [(10, 2000)] (Camera.init ⟨0, 0, 0⟩ (-90) 0)).pitch_ ≤ 89) := by
  have h1 : -89 ≤ (Camera.init ⟨0, 0, 0⟩ (-90) 0).pitch_ := by
    rw [init_pitch]
    norm_num
  have h2 : (Camera.init ⟨0, 0, 0⟩ (-90) 0).pitch_ ≤ 89 := by
    rw [init_pitch]
    norm_num
  exact ⟨⟨h1, h2⟩, constrained_mouse_sequence_pitch_bounded [(10, 2000)] _ h1 h2⟩

/-- C4: `handle_scroll` subtracts the clamped delta `clamp(yo, 1, 45)`
from the field of view (the clamp applies to the delta, not the
result); concretely, scrolling by 5 from the initial 45 gives 40. -/
theorem handle_scroll_subtracts_clamped_delta :
    (∀ (c : Camera) (yo : ℝ), (c.handle_scroll yo).fov_ = c.fov_ - clamp yo 1 45) ∧
    (∀ (p : Vec3) (yaw pitch : ℝ), ((Camera.init p yaw pitch).handle_scroll 5).fov_ = 40) := by
  refine ⟨fun c yo => rfl, fun p yaw pitch => ?_⟩
  rw [handle_scroll_fov, init_fov]
  unfold clamp
  rw [min_eq_left (by norm_num : (5 : ℝ) ≤ 45), max_eq_right (by norm_num : (1 : ℝ) ≤ 5)]
  norm_num

/-- C5 counterexample: a single `handle_scroll(45)` from the initial
field of view 45 leaves `fov_ = 0`, which is outside [1, 45] — the
field of view is not kept within that interval. -/
theorem fov_leaves_interval_after_single_scroll :
    ((Camera.init ⟨0, 0, 0⟩ (-90) 0).handle_scroll 45).fov_ = 0 ∧
    ¬(1 ≤ ((Camera.init ⟨0, 0, 0⟩ (-90) 0).handle_scroll 45).fov_) := by
  have h : ((Camera.init ⟨0, 0, 0⟩ (-90) 0).handle_scroll 45).fov_ = 0 := by
    rw [handle_scroll_fov, init_fov]
    unfold clamp
    rw [min_self, max_eq_right (by norm_num : (1 : ℝ) ≤ 45)]
    norm_num
  refine ⟨h, ?_⟩
  rw [h]
  norm_num

/-- Each scroll call subtracts at least 1 and at most 45 from the
field of view. -/
theorem handle_scroll_fov_decrease (c : Camera) (yo : ℝ) :
    (c.handle_scroll yo).fov_ ≤ c.fov_ - 1 ∧ c.fov_ - 45 ≤ (c.handle_scroll yo).fov_ := by
  rw [handle_scroll_fov]
  have hlo : 1 ≤ clamp yo 1 45 := le_max_left _ _
  have hhi : clamp yo 1 45 ≤ 45 := max_le (by norm_num) (min_le_right _ _)
  constructor <;> linarith

/-- Any scroll sequence only ever lowers the field of view. -/
theorem scroll_events_fov_le (evs : List ℝ) (c : Camera) :
    (apply_scroll_events evs c).fov_ ≤ c.fov_ := by
  induction evs generalizing c with
  | nil => exact le_refl _
  | cons e rest ih =>
    have h1 : (c.handle_scroll e).fov_ ≤ c.fov_ := by
      have := (handle_scroll_fov_decrease c e).1
      linarith
    calc (apply_scroll_events (e :: rest) c).fov_
        = (apply_scroll_events rest (c.handle_scroll e)).fov_ := rfl
      _ ≤ (c.handle_scroll e).fov_ := ih _
      _ ≤ c.fov_ := h1

/-- C5 amended: from the initial field of view 45, every scroll
sequence keeps the field of view at most 45 (each call subtracts a
delta clamped into [1, 45]), but there is no lower bound at 1: the
value can leave [1, 45] from below. -/
theorem fov_bounded_above_from_initial :
    (∀ (p : Vec3) (yaw pitch : ℝ) (evs : List ℝ),
      (apply_scroll_events evs (Camera.init p yaw pitch)).fov_ ≤ 45) ∧
    (∀ (c : Camera) (yo : ℝ),
      (c.handle_scroll yo).fov_ ≤ c.fov_ - 1 ∧ c.fov_ - 45 ≤ (c.handle_scroll yo).fov_) := by
  refine ⟨fun p yaw pitch evs => ?_, handle_scroll_fov_decrease⟩
  have h := scroll_events_fov_le evs (Camera.init p yaw pitch)
  rw [init_fov] at h
  exact h

/-- C6: `handle_mouse` scales both offsets by the mouse sensitivity,
adds the scaled x-offset to the yaw and subtracts the scaled y-offset
from the pitch (clamping afterwards when constrained); with the
default sensitivity 0.1, `handle_mouse(10, 0)` raises the yaw by
exactly 1. -/
theorem handle_mouse_scales_and_applies_offsets :
    (∀ (c : Camera) (x y : ℝ) (cp : Bool),
      (c.handle_mouse x y cp).yaw_ = c.yaw_ + x * c.mouse_sensitivity_) ∧
    (∀ (c : Camera) (x y : ℝ),
      (c.handle_mouse x y false).pitch_ = c.pitch_ - y * c.mouse_sensitivity_) ∧
    (∀ (c : Camera) (x y : ℝ),
      (c.handle_mouse x y true).pitch_ = clamp (c.pitch_ - y * c.mouse_sensitivity_) (-89) 89) ∧
    (∀ (p : Vec3) (yaw pitch : ℝ) (cp : Bool),
      ((Camera.init p yaw pitch).handle_mouse 10 0 cp).yaw_ = yaw + 1) := by
  refine ⟨fun c x y cp => rfl, fun c x y => rfl, fun c x y => rfl, fun p yaw pitch cp => ?_⟩
  rw [handle_mouse_yaw, init_yaw, init_sensitivity]
  norm_num

/-- C7: `handle_keyboard` displaces the position along `forward_`
(for forward/backward) or `right_` (for left/right) by
`movement_speed_ * delta_time`, adding for forward/right and
subtracting for backward/left. -/
theorem handle_keyboard_displacement (c : Camera) (dt : ℝ) :
    (c.handle_keyboard direction.forward dt).position_ =
      c.position_.add (c.forward_.scale (c.movement_speed_ * dt)) ∧
    (c.handle_keyboard direction.backward dt).position_ =
      c.position_.sub (c.forward_.scale (c.movement_speed_ * dt)) ∧
    (c.handle_keyboard direction.left dt).position_ =
      c.position_.sub (c.right_.scale (c.movement_speed_ * dt)) ∧
    (c.handle_keyboard direction.right dt).position_ =
      c.position_.add (c.right_.scale (c.movement_speed_ * dt)) :=
  ⟨rfl, rfl, rfl, rfl⟩

/-- Adding and then subtracting the same scaled vector is the
identity on the position. -/
theorem add_scale_sub_scale (p f : Vec3) (k : ℝ) : (p.add (f.scale k)).sub (f.scale k) = p := by
  cases p
  cases f
  simp only [Vec3.add, Vec3.scale, Vec3.sub, Vec3.mk.injEq]
  exact ⟨by ring, by ring, by ring⟩

/-- C8: a forward step followed by a backward step with the same
`delta_time` restores the position exactly (the `forward_` vector and
speed are untouched in between, so the displacements are negations). -/
theorem forward_backward_round_trip (c : Camera) (dt : ℝ) (h : 0 ≤ dt) :
    ((c.handle_keyboard direction.forward dt).handle_keyboard direction.backward dt).position_ =
      c.position_ := by
  have key : ((c.handle_keyboard direction.forward dt).handle_keyboard
      direction.backward dt).position_ =
      (c.position_.add (c.forward_.scale (c.movement_speed_ * dt))).sub
        (c.forward_.scale (c.movement_speed_ * dt)) := rfl
  rw [key, add_scale_sub_scale]

/-- C8 witness: the default camera walks forward and back for one
second and ends where it started. -/
theorem forward_backward_round_trip_witness :
    (0 : ℝ) ≤ 1 ∧
    (((Camera.init ⟨0, 0, 3⟩ (-90) 0).handle_keyboard direction.forward 1).handle_keyboard
        direction.backward 1).position_ = (Camera.init ⟨0, 0, 3⟩ (-90) 0).position_ :=
  ⟨by norm_num, forward_backward_round_trip _ 1 (by norm_num)⟩

/-- C9 counterexample: a constrained mouse move of y-offset -1000 from
pitch 0 lands exactly on the boundary 89 — the constrained pitch is
clamped to the closed interval and does reach ±89. -/
theorem constrained_pitch_reaches_boundary :
    ((Camera.init ⟨0, 0, 0⟩ (-90) 0).handle_mouse 0 (-1000) true).pitch_ = 89 ∧
    ¬(((Camera.init ⟨0, 0, 0⟩ (-90) 0).handle_mouse 0 (-1000) true).pitch_ < 89) := by
  have h : ((Camera.init ⟨0, 0, 0⟩ (-90) 0).handle_mouse 0 (-1000) true).pitch_ = 89 := by
    rw [handle_mouse_pitch_true, init_pitch, init_sensitivity]
    have harg : (0 : ℝ) - (-1000) * 0.1 = 100 := by norm_num
    rw [harg]
    unfold clamp
    rw [min_eq_right (by norm_num : (89 : ℝ) ≤ 100),
      max_eq_right (by norm_num : (-89 : ℝ) ≤ 89)]
  refine ⟨h, ?_⟩
  rw [h]
  exact lt_irrefl _

/-- C9 amended: after a constrained `handle_mouse` call the pitch lies
in the closed interval [-89, 89]; the endpoints are attained, so the
open interval of the claim is weakened to the closed one. -/
theorem constrained_pitch_in_closed_interval (c : Camera) (x y : ℝ) :
    (c.handle_mouse x y true).pitch_ ∈ Set.Icc (-89 : ℝ) 89 :=
  handle_mouse_true_pitch_bounds c x y

/-- C10: each operation touches only the fields of its documented
effect — `handle_keyboard` only `position_`, `handle_mouse` only
yaw/pitch/forward/right, `handle_scroll` only `fov_` — and `view`/`fov`
are pure reads of the state. -/
theorem operations_frame_conditions :
    (∀ (c : Camera) (d : direction) (dt : ℝ),
      (c.handle_keyboard d dt).yaw_ = c.yaw_ ∧
      (c.handle_keyboard d dt).pitch_ = c.pitch_ ∧
      (c.handle_keyboard d dt).forward_ = c.forward_ ∧
      (c.handle_keyboard d dt).right_ = c.right_ ∧
      (c.handle_keyboard d dt).up_ = c.up_ ∧
      (c.handle_keyboard d dt).world_up_ = c.world_up_ ∧
      (c.handle_keyboard d dt).movement_speed_ = c.movement_speed_ ∧
      (c.handle_keyboard d dt).mouse_sensitivity_ = c.mouse_sensitivity_ ∧
      (c.handle_keyboard d dt).fov_ = c.fov_) ∧
    (∀ (c : Camera) (x y : ℝ) (cp : Bool),
      (c.handle_mouse x y cp).position_ = c.position_ ∧
      (c.handle_mouse x y cp).fov_ = c.fov_ ∧
      (c.handle_mouse x y cp).up_ = c.up_ ∧
      (c.handle_mouse x y cp).world_up_ = c.world_up_ ∧
      (c.handle_mouse x y cp).movement_speed_ = c.movement_speed_ ∧
      (c.handle_mouse x y cp).mouse_sensitivity_ = c.mouse_sensitivity_) ∧
    (∀ (c : Camera) (yo : ℝ),
      (c.handle_scroll yo).position_ = c.position_ ∧
      (c.handle_scroll yo).forward_ = c.forward_ ∧
      (c.handle_scroll yo).right_ = c.right_ ∧
      (c.handle_scroll yo).up_ = c.up_ ∧
      (c.handle_scroll yo).world_up_ = c.world_up_ ∧
      (c.handle_scroll yo).yaw_ = c.yaw_ ∧
      (c.handle_scroll yo).pitch_ = c.pitch_ ∧
      (c.handle_scroll yo).movement_speed_ = c.movement_speed_ ∧
      (c.handle_scroll yo).mouse_sensitivity_ = c.mouse_sensitivity_) ∧
    (∀ c : Camera,
      c.view = lookAt c.position_ (c.position_.add c.forward_) c.up_ ∧ c.fov = c.fov_) := by
  refine ⟨fun c d dt => ?_,
    fun c x y cp => ⟨rfl, rfl, rfl, rfl, rfl, rfl⟩,
    fun c yo => ⟨rfl, rfl, rfl, rfl, rfl, rfl, rfl, rfl, rfl⟩,
    fun c => ⟨rfl, rfl⟩⟩
  cases d <;> exact ⟨rfl, rfl, rfl, rfl, rfl, rfl, rfl, rfl, rfl⟩

end LearnGL
